import Mathlib

/-!
Verification model of `system/DatabaseManager.py` (repository BespredeL/cvcounter).

The file embeds the `DatabaseManager` class shallowly:

* the `cvcounter` table is a list of `CounterRec` rows plus an autoincrement
  counter (`DB`); a `World` adds the logger's output;
* Python's `json.dumps` / `json.loads` (the standard library, not repository
  code) are embedded as `dumps` / `loads` over a `Json` value type.  Numbers
  are modelled as integers (no part of the repository produces or consumes
  JSON floats), `json.dumps` is modelled with its default arguments
  (`ensure_ascii=True`, separators `", "` / `": "`), and a JSON text whose
  meaning needs a lone UTF-16 surrogate is (only) rejected by the model;
* `datetime.now()` is an explicit `now : Nat` argument (a tick count), and the
  `strftime("%Y-%m-%d %H:%M:%S")` rendering used inside `parts` entries is an
  explicit `nowStr : String` argument;
* a storage failure (`SQLAlchemyError`) is injected through a `storageFail`
  flag, modelled as the session's query raising; the staged-but-uncommitted
  changes a commit-time failure would discard behave identically, because the
  model installs row changes only on the success path;
* the `parts` Text column always holds `json.dumps` of a JSON array, and
  `json.dumps` is injective on arrays with `json.loads` as left inverse, so
  the model stores the decoded array (`Option (List Json)`, `none` = SQL NULL);
  the `custom_fields` Text column is kept as a raw string (`Option String`)
  because `save_result` stores some strings without re-serialising them;
* an uncaught Python exception (malformed JSON, `dict.update` on or with a
  non-dict — the unused corner of `dict.update` accepting a list of pairs is
  also modelled as raising) is `PyResult.exn`; control then leaves the method
  before `session.commit()`, so the database is unchanged.
-/

namespace CVCounter

/-- A JSON value as produced by Python's `json` module, with numbers
restricted to integers. Objects are association lists in insertion order,
mirroring Python dicts. -/
inductive Json where
  | null : Json
  | bool : Bool → Json
  | num : Int → Json
  | str : String → Json
  | arr : List Json → Json
  | obj : List (String × Json) → Json

/-- Python truthiness of a parsed JSON value (`if custom_fields:` etc.). -/
def pyTruthy : Json → Bool
  | .null => false
  | .bool b => b
  | .num n => decide (n ≠ 0)
  | .str s => !s.isEmpty
  | .arr l => !l.isEmpty
  | .obj l => !l.isEmpty

/-- `d[k] = v` on a Python dict kept as an insertion-ordered association
list: an existing key keeps its position and gets the new value, a new key is
appended. -/
def dictInsert (d : List (String × Json)) (k : String) (v : Json) :
    List (String × Json) :=
  if d.any (fun p => p.1 == k) then
    d.map (fun p => if p.1 == k then (k, v) else p)
  else d ++ [(k, v)]

/-- Python `d.update(e)` for dicts: assign every pair of `e` into `d` in
order. -/
def dictUpdate (d e : List (String × Json)) : List (String × Json) :=
  e.foldl (fun acc p => dictInsert acc p.1 p.2) d

/-- Python dict lookup `d[k]` (first — and, for dicts, only — binding). -/
def dictGet (d : List (String × Json)) (k : String) : Option Json :=
  (d.find? (fun p => p.1 == k)).map (fun p => p.2)

/-- Lower-case hexadecimal digit, as in Python's `\uXXXX` escapes. -/
def hexDigit (n : Nat) : Char :=
  if n < 10 then Char.ofNat (48 + n) else Char.ofNat (87 + n)

/-- Four lower-case hex digits. -/
def u16hex (n : Nat) : String :=
  String.mk [hexDigit (n / 4096 % 16), hexDigit (n / 256 % 16),
             hexDigit (n / 16 % 16), hexDigit (n % 16)]

/-- `json.dumps` escaping of one character with `ensure_ascii=True`: the
short escapes of the C scanner's table, `\uXXXX` for every other character
outside the printable ASCII range (surrogate pairs above the BMP). -/
def escChar (c : Char) : String :=
  if c = '"' then "\\\""
  else if c = '\\' then "\\\\"
  else if c = '\n' then "\\n"
  else if c = '\t' then "\\t"
  else if c = '\r' then "\\r"
  else if c = Char.ofNat 8 then "\\b"
  else if c = Char.ofNat 12 then "\\f"
  else if c.toNat < 32 || c.toNat > 126 then
    if c.toNat ≤ 65535 then "\\u" ++ u16hex c.toNat
    else
      let n := c.toNat - 65536
      "\\u" ++ u16hex (55296 + n / 1024) ++ "\\u" ++ u16hex (56320 + n % 1024)
  else String.singleton c

/-- `json.dumps` of a string. -/
def dumpsString (s : String) : String :=
  "\"" ++ String.join (s.data.map escChar) ++ "\""

mutual

/-- `json.dumps` with its default arguments (item separator `", "`, key
separator `": "`, `ensure_ascii=True`). -/
def dumps : Json → String
  | .null => "null"
  | .bool true => "true"
  | .bool false => "false"
  | .num n => toString n
  | .str s => dumpsString s
  | .arr l => "[" ++ dumpsElems l ++ "]"
  | .obj l => "\x7b" ++ dumpsMembers l ++ "\x7d"

/-- Array elements, `", "`-separated. -/
def dumpsElems : List Json → String
  | [] => ""
  | [x] => dumps x
  | x :: y :: rest => dumps x ++ ", " ++ dumpsElems (y :: rest)

/-- Object members, `"key": value` each, `", "`-separated. -/
def dumpsMembers : List (String × Json) → String
  | [] => ""
  | [(k, v)] => dumpsString k ++ ": " ++ dumps v
  | (k, v) :: q :: rest => dumpsString k ++ ": " ++ dumps v ++ ", " ++ dumpsMembers (q :: rest)

end

/-- JSON whitespace skipping (space, tab, newline, carriage return). -/
def skipWs : List Char → List Char
  | c :: cs => if c = ' ' || c = '\t' || c = '\n' || c = '\r' then skipWs cs else c :: cs
  | [] => []

/-- Value of a hexadecimal digit. -/
def hexVal (c : Char) : Option Nat :=
  if '0' ≤ c ∧ c ≤ '9' then some (c.toNat - 48)
  else if 'a' ≤ c ∧ c ≤ 'f' then some (c.toNat - 87)
  else if 'A' ≤ c ∧ c ≤ 'F' then some (c.toNat - 55)
  else none

/-- Four hex digits of a `\uXXXX` escape. -/
def parseHex4 : List Char → Option (Nat × List Char)
  | a :: b :: c :: d :: rest => do
    let va ← hexVal a
    let vb ← hexVal b
    let vc ← hexVal c
    let vd ← hexVal d
    pure (va * 4096 + vb * 256 + vc * 16 + vd, rest)
  | _ => none

/-- Body of a JSON string after the opening quote: returns the decoded
characters and the input following the closing quote.  Strict mode: raw
control characters are rejected; a `\uXXXX` escape of a high surrogate must
be followed by a low surrogate (the model rejects lone surrogates, which
CPython would keep). -/
def parseStringBody : Nat → List Char → Option (List Char × List Char)
  | 0, _ => none
  | _, [] => none
  | fuel + 1, c :: cs =>
    if c = '"' then some ([], cs)
    else if c = '\\' then
      match cs with
      | [] => none
      | e :: cs1 =>
        if e = 'u' then
          match parseHex4 cs1 with
          | none => none
          | some (n, cs2) =>
            if 55296 ≤ n ∧ n ≤ 56319 then
              match cs2 with
              | '\\' :: 'u' :: cs3 =>
                match parseHex4 cs3 with
                | some (m, cs4) =>
                  if 56320 ≤ m ∧ m ≤ 57343 then
                    (parseStringBody fuel cs4).map (fun r =>
                      (Char.ofNat (65536 + (n - 55296) * 1024 + (m - 56320)) :: r.1, r.2))
                  else none
                | none => none
              | _ => none
            else if 56320 ≤ n ∧ n ≤ 57343 then none
            else
              (parseStringBody fuel cs2).map (fun r => (Char.ofNat n :: r.1, r.2))
        else
          match
            (if e = '"' then some '"'
             else if e = '\\' then some '\\'
             else if e = '/' then some '/'
             else if e = 'b' then some (Char.ofNat 8)
             else if e = 'f' then some (Char.ofNat 12)
             else if e = 'n' then some '\n'
             else if e = 'r' then some '\r'
             else if e = 't' then some '\t'
             else none) with
          | some d => (parseStringBody fuel cs1).map (fun r => (d :: r.1, r.2))
          | none => none
    else if c.toNat < 32 then none
    else
      (parseStringBody fuel cs).map (fun r => (c :: r.1, r.2))

/-- Digit run to a natural number. -/
def digitsToNat (ds : List Char) : Nat :=
  ds.foldl (fun acc c => acc * 10 + (c.toNat - 48)) 0

/-- A JSON integer literal: optional minus, digit run without a redundant
leading zero, not followed by a fraction or exponent (floats are outside the
model). -/
def parseNumber (cs : List Char) : Option (Int × List Char) :=
  let (neg, cs1) := match cs with
    | '-' :: rest => (true, rest)
    | _ => (false, cs)
  let ds := cs1.takeWhile (fun c => '0' ≤ c && c ≤ '9')
  let rest := cs1.dropWhile (fun c => '0' ≤ c && c ≤ '9')
  if ds.isEmpty then none
  else if ds.length > 1 && ds.headD '0' = '0' then none
  else
    match rest with
    | '.' :: _ => none
    | 'e' :: _ => none
    | 'E' :: _ => none
    | _ =>
      let n : Int := Int.ofNat (digitsToNat ds)
      some (if neg then -n else n, rest)

mutual

/-- One JSON value; returns the value and the remaining input. -/
def parseVal : Nat → List Char → Option (Json × List Char)
  | 0, _ => none
  | fuel + 1, cs =>
    match skipWs cs with
    | [] => none
    | c :: cs1 =>
      if c = 'n' then
        match cs1 with
        | 'u' :: 'l' :: 'l' :: r => some (.null, r)
        | _ => none
      else if c = 't' then
        match cs1 with
        | 'r' :: 'u' :: 'e' :: r => some (.bool true, r)
        | _ => none
      else if c = 'f' then
        match cs1 with
        | 'a' :: 'l' :: 's' :: 'e' :: r => some (.bool false, r)
        | _ => none
      else if c = '"' then
        (parseStringBody fuel cs1).map (fun r => (.str (String.mk r.1), r.2))
      else if c = '[' then
        match skipWs cs1 with
        | ']' :: r => some (.arr [], r)
        | cs2 =>
          match parseVal fuel cs2 with
          | none => none
          | some (v, r) =>
            (parseArrTail fuel r).map (fun t => (.arr (v :: t.1), t.2))
      else if c = '\x7b' then
        match skipWs cs1 with
        | '\x7d' :: r => some (.obj [], r)
        | cs2 =>
          match parseMember fuel cs2 with
          | none => none
          | some (kv, r) =>
            (parseObjTail fuel r).map (fun t =>
              (.obj ((kv :: t.1).foldl (fun d p => dictInsert d p.1 p.2) []), t.2))
      else
        (parseNumber (c :: cs1)).map (fun r => (.num r.1, r.2))

/-- Array continuation after one element: `, v`* then `]`. -/
def parseArrTail : Nat → List Char → Option (List Json × List Char)
  | 0, _ => none
  | fuel + 1, cs =>
    match skipWs cs with
    | ']' :: r => some ([], r)
    | ',' :: r =>
      match parseVal fuel r with
      | none => none
      | some (v, r1) => (parseArrTail fuel r1).map (fun t => (v :: t.1, t.2))
    | _ => none

/-- One `"key": value` member. -/
def parseMember : Nat → List Char → Option ((String × Json) × List Char)
  | 0, _ => none
  | fuel + 1, cs =>
    match cs with
    | '"' :: cs1 =>
      match parseStringBody fuel cs1 with
      | none => none
      | some (kchars, r) =>
        match skipWs r with
        | ':' :: r1 =>
          (parseVal fuel r1).map (fun v => ((String.mk kchars, v.1), v.2))
        | _ => none
    | _ => none

/-- Object continuation after one member: `, m`* then the closing brace. -/
def parseObjTail : Nat → List Char → Option (List (String × Json) × List Char)
  | 0, _ => none
  | fuel + 1, cs =>
    match skipWs cs with
    | '\x7d' :: r => some ([], r)
    | ',' :: r =>
      match skipWs r with
      | cs1 =>
        match parseMember fuel cs1 with
        | none => none
        | some (kv, r1) => (parseObjTail fuel r1).map (fun t => (kv :: t.1, t.2))
    | _ => none

end

/-- `json.loads`, restricted as described in the header: parse one value,
then only whitespace may remain.  Duplicate object keys collapse the way
building a Python dict does (first position, last value). -/
def loads (s : String) : Option Json :=
  match parseVal (2 * s.length + 4) s.data with
  | some (v, rest) => if (skipWs rest).isEmpty then some v else none
  | none => none

/-- One row of the `cvcounter` table (class `CVCounter` in the source).
Timestamps are abstract ticks; `parts` holds the JSON array the Text column
decodes to (`none` = NULL); `custom_fields` holds the raw Text column
(`none` = NULL). -/
structure CounterRec where
  id : Nat
  active : Bool
  location : String
  total_count : Int
  source_count : Int
  defects_count : Int
  correct_count : Int
  parts : Option (List Json)
  custom_fields : Option String
  created_at : Nat
  updated_at : Nat

/-- The table plus the autoincrement state of the `id` primary key. -/
structure DB where
  rows : List CounterRec
  nextId : Nat

/-- Database plus the `Logger` collaborator's output. -/
structure World where
  db : DB
  log : List String

/-- Outcome of a call: a returned value, or an uncaught Python exception
escaping the method (malformed JSON and similar — not `SQLAlchemyError`). -/
inductive PyResult (α : Type) where
  | ok : α → PyResult α
  | exn : PyResult α

/-- First element satisfying a predicate, together with its index:
`query(...).filter_by(...).first()` over the table in row order. -/
def firstWhere : List CounterRec → (CounterRec → Bool) → Option (Nat × CounterRec)
  | [], _ => none
  | r :: rs, p =>
    if p r then some (0, r)
    else (firstWhere rs p).map (fun x => (x.1 + 1, x.2))

/-- The filter `location=location, active=True`. -/
def activeAt (location : String) (r : CounterRec) : Bool :=
  r.location == location && r.active

/-- `session.query(CVCounter).filter_by(location=location, active=True).first()`. -/
def firstActive (db : DB) (location : String) : Option (Nat × CounterRec) :=
  firstWhere db.rows (activeAt location)

/-- Abstract `str(error)` of the `SQLAlchemyError` the storage layer raised. -/
def sqlErrMsg : String := "SQLAlchemyError"

/-- Abstract output of `Logger.log_exception()`. -/
def tracebackMsg : String := "traceback"

/-- Lines 91-93 of the source: `new_custom_fields = \x7b\x7d` then, when the
input string is truthy, `json.loads(custom_fields)` (the `else '\x7b\x7d'` inside
that call is dead, being guarded by `if custom_fields:`). -/
def parseNewCF (custom_fields : String) : PyResult Json :=
  if custom_fields.isEmpty then .ok (.obj [])
  else
    match loads custom_fields with
    | some v => .ok v
    | none => .exn

/-- `json.loads(result.custom_fields if result.custom_fields else '\x7b\x7d')`:
NULL and the empty string fall back to the empty-object text. -/
def loadsOr (stored : Option String) : Option Json :=
  match stored with
  | some s => if s.isEmpty then loads "\x7b\x7d" else loads s
  | none => loads "\x7b\x7d"

/-- Lines 97-101 of the source, run only when an active record exists: parse
the stored `custom_fields`; when the parsed input is truthy, merge
(`existing.update(new)`) and re-serialise, otherwise keep the raw input
string.  `dict.update` involving a non-dict is modelled as raising. -/
def mergeCF (stored : Option String) (input : String) (newCF : Json) : PyResult String :=
  match loadsOr stored with
  | none => .exn
  | some existing =>
    if pyTruthy newCF then
      match existing, newCF with
      | .obj e, .obj o => .ok (dumps (.obj (dictUpdate e o)))
      | _, _ => .exn
    else .ok input

/-- `DatabaseManager.save_result` (lines 86-134).  A `storageFail` models the
session raising `SQLAlchemyError`: the handler rolls back, logs the message
and the traceback, and returns `False`. -/
def saveResult (w : World) (location : String)
    (total_count source_count defects_count correct_count : Int)
    (custom_fields : String) (active : Bool) (now : Nat) (storageFail : Bool) :
    PyResult (World × Bool) :=
  if storageFail then
    .ok ({ w with log := w.log ++ [sqlErrMsg, tracebackMsg] }, false)
  else
    let result := firstActive w.db location
    match parseNewCF custom_fields with
    | .exn => .exn
    | .ok newCustomFields =>
      match result with
      | some (i, r) =>
        match mergeCF r.custom_fields custom_fields newCustomFields with
        | .exn => .exn
        | .ok cf =>
          let updated : CounterRec :=
            { r with active := active, total_count := total_count,
                     source_count := source_count, defects_count := defects_count,
                     correct_count := correct_count, custom_fields := some cf,
                     updated_at := now }
          .ok ({ w with db := { w.db with rows := w.db.rows.set i updated } }, true)
      | none =>
        let newRow : CounterRec :=
          { id := w.db.nextId, active := active, location := location,
            total_count := total_count, source_count := source_count,
            defects_count := defects_count, correct_count := correct_count,
            parts := none, custom_fields := some custom_fields,
            created_at := now, updated_at := now }
        .ok ({ w with db := { rows := w.db.rows ++ [newRow],
                              nextId := w.db.nextId + 1 } }, true)

/-- The `created_at` sort key `lambda x: x['created_at']` of a parts entry,
defined when the entry is an object whose `created_at` member is a string. -/
def partKey (j : Json) : Option String :=
  match j with
  | .obj kvs =>
    match dictGet kvs "created_at" with
    | some (.str s) => some s
    | _ => none
  | _ => none

/-- Sort key with a default never used on the success path. -/
def partKeyD (j : Json) : String := (partKey j).getD ""

/-- `json.loads(result.parts) if result.parts else []`. -/
def decodeParts (p : Option (List Json)) : List Json :=
  match p with
  | some l => l
  | none => []

/-- Lexicographic code-point comparison of character lists: the order in
which Python compares `str` values (a proper prefix sorts first). -/
def charListLe : List Char → List Char → Bool
  | [], _ => true
  | _ :: _, [] => false
  | a :: as, b :: bs =>
    if a.toNat < b.toNat then true
    else if b.toNat < a.toNat then false
    else charListLe as bs

/-- String comparison `a ≤ b` by code points, as Python compares `str`. -/
def strLe (a b : String) : Bool := charListLe a.data b.data

/-- The descending order used by `sorted(parts, key=lambda x: x['created_at'],
reverse=True)`: `a` may come before `b` when `b`'s key is at most `a`'s. -/
def partLe (a b : Json) : Prop := strLe (partKeyD b) (partKeyD a) = true

instance : DecidableRel partLe := fun a b =>
  inferInstanceAs (Decidable (strLe (partKeyD b) (partKeyD a) = true))

/-- The dict appended by `save_part_result` (lines 154-160). -/
def mkPartEntry (current_count total_count defects_count correct_count : Int)
    (nowStr : String) : Json :=
  .obj [("current", .num current_count), ("total", .num total_count),
        ("defects", .num defects_count), ("correct", .num correct_count),
        ("created_at", .str nowStr)]

/-- `DatabaseManager.save_part_result` (lines 147-173).  The re-sort
`sorted(parts, key=lambda x: x['created_at'], reverse=True)` is a stable sort
putting the greatest `created_at` strings first; a stable sort under a total
preorder has a unique result, so the stable `insertionSort` below computes
exactly what CPython's stable sort returns.  An entry on which the key
function would raise makes the call raise. -/
def savePartResult (w : World) (location : String)
    (current_count total_count defects_count correct_count : Int)
    (nowStr : String) (now : Nat) (storageFail : Bool) :
    PyResult (World × Bool) :=
  if storageFail then
    .ok ({ w with log := w.log ++ [sqlErrMsg, tracebackMsg] }, false)
  else
    match firstActive w.db location with
    | some (i, r) =>
      let parts := decodeParts r.parts ++
        [mkPartEntry current_count total_count defects_count correct_count nowStr]
      if parts.all (fun e => (partKey e).isSome) then
        let sortedParts := parts.insertionSort partLe
        let updated : CounterRec := { r with parts := some sortedParts, updated_at := now }
        .ok ({ w with db := { w.db with rows := w.db.rows.set i updated } }, true)
      else .exn
    | none => .ok (w, false)

/-- `DatabaseManager.close_current_count` (lines 182-197); its error handler
logs the message only (no traceback). -/
def closeCurrentCount (w : World) (location : String) (now : Nat)
    (storageFail : Bool) : World × Bool :=
  if storageFail then
    ({ w with log := w.log ++ [sqlErrMsg] }, false)
  else
    match firstActive w.db location with
    | some (i, r) =>
      let updated : CounterRec := { r with active := false, updated_at := now }
      ({ w with db := { w.db with rows := w.db.rows.set i updated } }, true)
    | none => (w, false)

/-- `DatabaseManager.get_current_count` (lines 209-218). -/
def getCurrentCount (w : World) (key : String) (storageFail : Bool) :
    World × Option CounterRec :=
  if storageFail then
    ({ w with log := w.log ++ [sqlErrMsg] }, none)
  else
    (w, (firstActive w.db key).map (fun x => x.2))

/-- `DatabaseManager.get_count` (lines 230-239). -/
def getCount (w : World) (rec_id : Nat) (storageFail : Bool) :
    World × Option CounterRec :=
  if storageFail then
    ({ w with log := w.log ++ [sqlErrMsg] }, none)
  else
    (w, (firstWhere w.db.rows (fun r => r.id == rec_id)).map (fun x => x.2))

/-- The dictionary returned by `get_paginated`. -/
structure PageResult where
  total : Nat
  page : Nat
  per_page : Nat
  results : List CounterRec
  has_next : Bool
  has_prev : Bool

/-- `DatabaseManager.get_paginated` (lines 251-270).  The source computes the
offset as `(page - 1) * per_page` on Python ints; pages are modelled as
naturals, which agrees with the source for every `page ≥ 1`. -/
def getPaginated (w : World) (key : String) (page per_page : Nat)
    (storageFail : Bool) : World × Option PageResult :=
  if storageFail then
    ({ w with log := w.log ++
        ["Error retrieving counters for key \x27" ++ key ++ "\x27: " ++ sqlErrMsg] }, none)
  else
    let query := w.db.rows.filter (fun r => r.location == key)
    let total := query.length
    let results := (query.drop ((page - 1) * per_page)).take per_page
    (w, some { total := total, page := page, per_page := per_page,
               results := results,
               has_next := decide (page * per_page < total),
               has_prev := decide (1 < page) })

/-- A sequence of `save_part_result` calls (used to state the repeated-append
property): `some w` when every call in the list succeeded and returned
`True`, `none` otherwise. -/
def runPartCalls (w : World) (location : String) :
    List (Int × Int × Int × Int × String × Nat) → Option World
  | [] => some w
  | (cur, tot, defe, cor, nowStr, now) :: rest =>
    match savePartResult w location cur tot defe cor nowStr now false with
    | .ok (w1, true) => runPartCalls w1 location rest
    | _ => none

/-- The keys of an association-list dict, in order. -/
def dictKeys (d : List (String × Json)) : List String := d.map Prod.fst

/-- A well-formed parts entry: exactly the five keys `save_part_result`
writes, with a numeric value on the four counters and a string `created_at`. -/
def isPartEntry : Json → Bool
  | .obj [("current", .num _), ("total", .num _), ("defects", .num _),
          ("correct", .num _), ("created_at", .str _)] => true
  | _ => false

/-- The order `save_part_result` maintains: descending in the `created_at`
strings, most recent first. -/
def partsSortedDesc (l : List Json) : Prop := l.Pairwise partLe

/-- Concrete sample data instantiating the theorems below: one active
record for location `line1` carrying the custom fields text of the object
with entry `a` mapped to `1`. -/
def sampleRow : CounterRec :=
  { id := 1, active := true, location := "line1", total_count := 10,
    source_count := 9, defects_count := 1, correct_count := 8,
    parts := none, custom_fields := some "\x7b\"a\": 1\x7d",
    created_at := 0, updated_at := 0 }

/-- A world holding exactly `sampleRow`. -/
def sampleWorld : World := { db := { rows := [sampleRow], nextId := 2 }, log := [] }

/-- A world with an empty table. -/
def emptyWorld : World := { db := { rows := [], nextId := 1 }, log := [] }

/-- Rows for the pagination example: all at location `k`, ids 1..15. -/
def pageRow (n : Nat) : CounterRec :=
  { id := n + 1, active := false, location := "k", total_count := 0,
    source_count := 0, defects_count := 0, correct_count := 0,
    parts := none, custom_fields := none, created_at := 0, updated_at := 0 }

/-- A world with fifteen rows at location `k`. -/
def pagedWorld : World :=
  { db := { rows := (List.range 15).map pageRow, nextId := 16 }, log := [] }

/-! ### Facts about `firstWhere` -/

theorem firstWhere_cons (a : CounterRec) (rows : List CounterRec)
    (p : CounterRec → Bool) :
    firstWhere (a :: rows) p =
      if p a then some (0, a)
      else (firstWhere rows p).map (fun x => (x.1 + 1, x.2)) := rfl

theorem firstWhere_getElem {rows : List CounterRec} {p : CounterRec → Bool}
    {i : Nat} {r : CounterRec} (h : firstWhere rows p = some (i, r)) :
    rows[i]? = some r ∧ p r = true := by
  induction rows generalizing i with
  | nil => exact Option.noConfusion h
  | cons a rows ih =>
    rw [firstWhere_cons] at h
    by_cases hp : p a
    · rw [if_pos hp] at h
      injection h with h
      simp only [Prod.mk.injEq] at h
      obtain ⟨rfl, rfl⟩ := h
      exact ⟨by simp, hp⟩
    · rw [if_neg hp] at h
      cases hfw : firstWhere rows p with
      | none => rw [hfw] at h; exact Option.noConfusion h
      | some x =>
        obtain ⟨i', r'⟩ := x
        rw [hfw, Option.map_some'] at h
        injection h with h
        simp only [Prod.mk.injEq] at h
        obtain ⟨rfl, rfl⟩ := h
        obtain ⟨hg, hpr⟩ := ih hfw
        exact ⟨by simpa using hg, hpr⟩

theorem firstWhere_eq_none_of {rows : List CounterRec} {p : CounterRec → Bool}
    (h : ∀ (j : Nat) (rj : CounterRec), rows[j]? = some rj → p rj = false) :
    firstWhere rows p = none := by
  induction rows with
  | nil => rfl
  | cons a rows ih =>
    have ha : ¬ (p a = true) := by
      rw [h 0 a (by simp)]
      exact Bool.false_ne_true
    rw [firstWhere_cons, if_neg ha,
      ih (fun (j : Nat) (rj : CounterRec) hj => h (j + 1) rj (by simpa using hj)),
      Option.map_none']

theorem firstWhere_set_self {rows : List CounterRec} {p : CounterRec → Bool}
    {i : Nat} {r : CounterRec} (h : firstWhere rows p = some (i, r))
    {r' : CounterRec} (hp : p r' = true) :
    firstWhere (rows.set i r') p = some (i, r') := by
  induction rows generalizing i with
  | nil => exact Option.noConfusion h
  | cons a rows ih =>
    rw [firstWhere_cons] at h
    by_cases hpa : p a
    · rw [if_pos hpa] at h
      injection h with h
      simp only [Prod.mk.injEq] at h
      obtain ⟨rfl, -⟩ := h
      rw [List.set_cons_zero, firstWhere_cons, if_pos hp]
    · rw [if_neg hpa] at h
      cases hfw : firstWhere rows p with
      | none => rw [hfw] at h; exact Option.noConfusion h
      | some x =>
        obtain ⟨i', r''⟩ := x
        rw [hfw, Option.map_some'] at h
        injection h with h
        simp only [Prod.mk.injEq] at h
        obtain ⟨rfl, rfl⟩ := h
        rw [List.set_cons_succ, firstWhere_cons, if_neg hpa, ih hfw,
          Option.map_some']

theorem firstWhere_set_none {rows : List CounterRec} {p : CounterRec → Bool}
    {i : Nat} {r : CounterRec} (h : firstWhere rows p = some (i, r))
    {r' : CounterRec} (hp : p r' = false)
    (hothers : ∀ (j : Nat) (rj : CounterRec), j ≠ i → rows[j]? = some rj → p rj = false) :
    firstWhere (rows.set i r') p = none := by
  obtain ⟨hget, -⟩ := firstWhere_getElem h
  have hi : i < rows.length := by
    by_contra hc
    rw [List.getElem?_eq_none (Nat.le_of_not_lt hc)] at hget
    exact Option.noConfusion hget
  apply firstWhere_eq_none_of
  intro j rj hj
  by_cases hji : j = i
  · subst hji
    rw [List.getElem?_set_self hi] at hj
    obtain rfl := Option.some.injEq .. ▸ hj
    exact hp
  · rw [List.getElem?_set_ne (fun hc => hji hc.symm)] at hj
    exact hothers j rj hji hj

/-! ### Facts about the dict merge -/

theorem dictKeys_dictInsert_of_mem {d : List (String × Json)} {k : String}
    (v : Json) (hk : d.any (fun p => p.1 == k) = true) :
    dictKeys (dictInsert d k v) = dictKeys d := by
  rw [dictInsert, if_pos hk, dictKeys, dictKeys, List.map_map]
  apply List.map_congr_left
  intro p _
  by_cases h : p.1 == k
  · simp only [Function.comp_apply, if_pos h]
    exact (eq_of_beq h).symm
  · simp only [Function.comp_apply, if_neg h]

theorem dictKeys_dictInsert_of_not_mem {d : List (String × Json)} {k : String}
    (v : Json) (hk : d.any (fun p => p.1 == k) = false) :
    dictKeys (dictInsert d k v) = dictKeys d ++ [k] := by
  rw [dictInsert, if_neg (by rw [hk]; exact Bool.false_ne_true), dictKeys, dictKeys,
    List.map_append, List.map_cons, List.map_nil]

theorem dictInsert_nodup {d : List (String × Json)} {k : String} (v : Json)
    (hd : (dictKeys d).Nodup) : (dictKeys (dictInsert d k v)).Nodup := by
  by_cases hk : d.any (fun p => p.1 == k) = true
  · rw [dictKeys_dictInsert_of_mem v hk]; exact hd
  · rw [dictKeys_dictInsert_of_not_mem v (Bool.not_eq_true _ ▸ hk)]
    have hnk : k ∉ dictKeys d := by
      intro hmem
      obtain ⟨p, hp, hpk⟩ := List.mem_map.mp hmem
      exact hk (List.any_eq_true.mpr ⟨p, hp, beq_iff_eq.mpr hpk⟩)
    exact List.Nodup.append hd (List.nodup_singleton k)
      (List.disjoint_singleton.mpr hnk)

theorem mem_dictInsert_self (d : List (String × Json)) (k : String) (v : Json) :
    (k, v) ∈ dictInsert d k v := by
  rw [dictInsert]
  by_cases hk : d.any (fun p => p.1 == k) = true
  · rw [if_pos hk]
    obtain ⟨p, hp, hpk⟩ := List.any_eq_true.mp hk
    exact List.mem_map.mpr ⟨p, hp, by rw [if_pos hpk]⟩
  · rw [if_neg hk]
    exact List.mem_append_right _ (List.mem_singleton.mpr rfl)

theorem mem_dictInsert_of_ne {d : List (String × Json)} {q : String × Json}
    (hq : q ∈ d) {k : String} (v : Json) (hne : q.1 ≠ k) :
    q ∈ dictInsert d k v := by
  rw [dictInsert]
  by_cases hk : d.any (fun p => p.1 == k) = true
  · rw [if_pos hk]
    exact List.mem_map.mpr ⟨q, hq, by rw [if_neg (by simpa using hne)]⟩
  · rw [if_neg hk]
    exact List.mem_append_left _ hq

theorem dictInsert_eq_of_mem {d : List (String × Json)} {k : String} {v : Json}
    (hd : (dictKeys d).Nodup) (hmem : (k, v) ∈ d) : dictInsert d k v = d := by
  have hk : d.any (fun p => p.1 == k) = true :=
    List.any_eq_true.mpr ⟨(k, v), hmem, beq_iff_eq.mpr rfl⟩
  rw [dictInsert, if_pos hk]
  conv_rhs => rw [← List.map_id d]
  apply List.map_congr_left
  intro p hp
  by_cases h : p.1 == k
  · have hpkv : p = (k, v) :=
      List.inj_on_of_nodup_map hd hp hmem (by simpa using eq_of_beq h)
    rw [if_pos h, hpkv, id]
  · rw [if_neg h, id]

theorem dictUpdate_cons (d : List (String × Json)) (q : String × Json)
    (e : List (String × Json)) :
    dictUpdate d (q :: e) = dictUpdate (dictInsert d q.1 q.2) e := rfl

theorem dictUpdate_nodup {d e : List (String × Json)}
    (hd : (dictKeys d).Nodup) : (dictKeys (dictUpdate d e)).Nodup := by
  induction e generalizing d with
  | nil => exact hd
  | cons q e ih => exact ih (dictInsert_nodup q.2 hd)

theorem mem_dictUpdate_of_not_key {d e : List (String × Json)}
    {q : String × Json} (hq : q ∈ d) (hkey : q.1 ∉ dictKeys e) :
    q ∈ dictUpdate d e := by
  induction e generalizing d with
  | nil => exact hq
  | cons p e ih =>
    rw [dictUpdate_cons]
    have hkeys : dictKeys (p :: e) = p.1 :: dictKeys e := rfl
    rw [hkeys] at hkey
    have h1 : q.1 ≠ p.1 := fun hc => hkey (hc ▸ List.mem_cons_self _ _)
    exact ih (mem_dictInsert_of_ne hq p.2 h1)
      (fun hc => hkey (List.mem_cons_of_mem _ hc))

theorem mem_dictUpdate {d e : List (String × Json)}
    (he : (dictKeys e).Nodup) {q : String × Json} (hq : q ∈ e) :
    q ∈ dictUpdate d e := by
  induction e generalizing d with
  | nil => exact absurd hq (List.not_mem_nil q)
  | cons p e ih =>
    rw [dictUpdate_cons]
    rcases List.mem_cons.mp hq with rfl | hq'
    · exact mem_dictUpdate_of_not_key (mem_dictInsert_self d q.1 q.2)
        (by rw [dictKeys] at he ⊢; exact (List.nodup_cons.mp he).1)
    · exact ih (by rw [dictKeys] at he ⊢; exact (List.nodup_cons.mp he).2) hq'

theorem dictUpdate_eq_of_forall_mem {d e : List (String × Json)}
    (hd : (dictKeys d).Nodup) (h : ∀ q ∈ e, q ∈ d) : dictUpdate d e = d := by
  induction e with
  | nil => rfl
  | cons p e ih =>
    rw [dictUpdate_cons,
      dictInsert_eq_of_mem hd (h p (List.mem_cons_self p e))]
    exact ih (fun q hq => h q (List.mem_cons_of_mem p hq))

/-- Assigning the same dict twice is the same as assigning it once: the core
of the `custom_fields` merge idempotence. -/
theorem dictUpdate_idem {d e : List (String × Json)}
    (hd : (dictKeys d).Nodup) (he : (dictKeys e).Nodup) :
    dictUpdate (dictUpdate d e) e = dictUpdate d e :=
  dictUpdate_eq_of_forall_mem (dictUpdate_nodup hd)
    (fun _ hq => mem_dictUpdate he hq)

/-! ### Facts about serialisation and parts entries -/

theorem dumps_obj_isEmpty_false (l : List (String × Json)) :
    (dumps (Json.obj l)).isEmpty = false := by
  have hne : dumps (Json.obj l) ≠ "" := by
    intro hc
    have hlen : (dumps (Json.obj l)).length = 0 := by rw [hc]; rfl
    rw [dumps] at hlen
    simp only [String.length_append] at hlen
    have h1 : ("\x7b" : String).length = 1 := rfl
    rw [h1] at hlen
    omega
  cases hb : (dumps (Json.obj l)).isEmpty with
  | false => rfl
  | true => exact absurd (String.isEmpty_iff _ |>.mp hb) hne

theorem isPartEntry_mkPartEntry (cur tot defe cor : Int) (nowStr : String) :
    isPartEntry (mkPartEntry cur tot defe cor nowStr) = true := rfl

theorem partKey_isSome_of_isPartEntry {e : Json} (h : isPartEntry e = true) :
    (partKey e).isSome = true := by
  unfold isPartEntry at h
  split at h
  · rfl
  · exact absurd h (by simp)

theorem charListLe_cons (a b : Char) (as bs : List Char) :
    charListLe (a :: as) (b :: bs) =
      if a.toNat < b.toNat then true
      else if b.toNat < a.toNat then false
      else charListLe as bs := rfl

theorem charListLe_head_le {a b : Char} {as bs : List Char}
    (h : charListLe (a :: as) (b :: bs) = true) : a.toNat ≤ b.toNat := by
  rw [charListLe_cons] at h
  by_cases h1 : a.toNat < b.toNat
  · exact Nat.le_of_lt h1
  · by_cases h2 : b.toNat < a.toNat
    · rw [if_neg h1, if_pos h2] at h
      exact Bool.noConfusion h
    · omega

theorem charListLe_total : ∀ (a b : List Char),
    charListLe a b = true ∨ charListLe b a = true
  | [], _ => Or.inl rfl
  | _ :: _, [] => Or.inr rfl
  | a :: as, b :: bs => by
    rw [charListLe_cons, charListLe_cons]
    by_cases h1 : a.toNat < b.toNat
    · left
      rw [if_pos h1]
    · by_cases h2 : b.toNat < a.toNat
      · right
        rw [if_pos h2]
      · rcases charListLe_total as bs with h | h
        · left
          rw [if_neg h1, if_neg h2]
          exact h
        · right
          rw [if_neg h2, if_neg h1]
          exact h

theorem charListLe_trans : ∀ (a b c : List Char),
    charListLe a b = true → charListLe b c = true → charListLe a c = true
  | [], _, _, _, _ => rfl
  | _ :: _, [], _, hab, _ => Bool.noConfusion hab
  | _ :: _, _ :: _, [], _, hbc => Bool.noConfusion hbc
  | a :: as, b :: bs, c :: cs, hab, hbc => by
    have le1 : a.toNat ≤ b.toNat := charListLe_head_le hab
    have le2 : b.toNat ≤ c.toNat := charListLe_head_le hbc
    rw [charListLe_cons]
    by_cases hac : a.toNat < c.toNat
    · rw [if_pos hac]
    · have hab' : a.toNat = b.toNat := by omega
      have hbc' : b.toNat = c.toNat := by omega
      rw [if_neg hac, if_neg (by omega)]
      rw [charListLe_cons, if_neg (by omega), if_neg (by omega)] at hab hbc
      exact charListLe_trans as bs cs hab hbc

/-- Reduction of a successful `save_part_result` on an existing active
record: the `parts` log gains one entry and is re-sorted, `updated_at` moves
to the call time, nothing else changes. -/
theorem savePartResult_step {w : World} {loc : String}
    (cur tot defe cor : Int) (nowStr : String) (now : Nat)
    {i : Nat} {r : CounterRec}
    (hfind : firstActive w.db loc = some (i, r))
    (hok : ∀ e ∈ decodeParts r.parts, (partKey e).isSome = true) :
    savePartResult w loc cur tot defe cor nowStr now false =
      .ok ({ w with
        db := { w.db with
          rows := w.db.rows.set i { r with
            parts := some ((decodeParts r.parts ++
              [mkPartEntry cur tot defe cor nowStr]).insertionSort partLe),
            updated_at := now } } }, true) := by
  have hall : ((decodeParts r.parts ++
      [mkPartEntry cur tot defe cor nowStr]).all
      (fun e => (partKey e).isSome)) = true := by
    rw [List.all_eq_true]
    intro e he
    rcases List.mem_append.mp he with h1 | h2
    · exact hok e h1
    · rw [List.mem_singleton.mp h2]; rfl
  simp only [savePartResult, Bool.false_eq_true, if_false, hfind, hall, if_true]

/-- Reduction of a successful `save_result` on an existing active record:
the row is overwritten in place, position and non-overwritten fields kept. -/
theorem saveResult_update {w : World} {loc : String}
    (tc sc dc cc : Int) {cf : String} (act : Bool) (now : Nat)
    {i : Nat} {r : CounterRec} {ncf : Json} {s : String}
    (hfind : firstActive w.db loc = some (i, r))
    (hparse : parseNewCF cf = .ok ncf)
    (hmerge : mergeCF r.custom_fields cf ncf = .ok s) :
    saveResult w loc tc sc dc cc cf act now false =
      .ok ({ w with
        db := { w.db with
          rows := w.db.rows.set i { r with
            active := act, total_count := tc, source_count := sc,
            defects_count := dc, correct_count := cc,
            custom_fields := some s, updated_at := now } } }, true) := by
  simp only [saveResult, Bool.false_eq_true, if_false, hfind, hparse, hmerge]

/-- Reduction of a successful `save_result` when no active record exists:
a fresh row is appended and the autoincrement id advances. -/
theorem saveResult_insert {w : World} {loc : String}
    (tc sc dc cc : Int) {cf : String} (act : Bool) (now : Nat) {ncf : Json}
    (hnone : firstActive w.db loc = none)
    (hparse : parseNewCF cf = .ok ncf) :
    saveResult w loc tc sc dc cc cf act now false =
      .ok ({ w with
        db := {
          rows := w.db.rows ++ [{
            id := w.db.nextId, active := act, location := loc,
            total_count := tc, source_count := sc, defects_count := dc,
            correct_count := cc, parts := none, custom_fields := some cf,
            created_at := now, updated_at := now }],
          nextId := w.db.nextId + 1 } }, true) := by
  simp only [saveResult, Bool.false_eq_true, if_false, hnone, hparse]

/-- Invariant carried by a run of successful `save_part_result` calls: the
same row stays the first active one for the location, its decoded `parts`
grows by one well-formed entry per call and stays sorted descending. -/
theorem runPartCalls_good {loc : String}
    (calls : List (Int × Int × Int × Int × String × Nat)) :
    ∀ (w : World) (i : Nat) (r : CounterRec),
    firstActive w.db loc = some (i, r) →
    (∀ e ∈ decodeParts r.parts, isPartEntry e = true) →
    partsSortedDesc (decodeParts r.parts) →
    ∀ w', runPartCalls w loc calls = some w' →
    ∃ r', firstActive w'.db loc = some (i, r') ∧
      (decodeParts r'.parts).length = (decodeParts r.parts).length + calls.length ∧
      (∀ e ∈ decodeParts r'.parts, isPartEntry e = true) ∧
      partsSortedDesc (decodeParts r'.parts) := by
  haveI htotal : IsTotal Json partLe :=
    ⟨fun a b => charListLe_total (partKeyD b).data (partKeyD a).data⟩
  haveI htrans : IsTrans Json partLe :=
    ⟨fun a b c hab hbc =>
      charListLe_trans (partKeyD c).data (partKeyD b).data (partKeyD a).data
        hbc hab⟩
  induction calls with
  | nil =>
    intro w i r hfind hgood hsort w' hrun
    injection hrun with hrun
    subst hrun
    exact ⟨r, hfind, by simp, hgood, hsort⟩
  | cons c rest ih =>
    intro w i r hfind hgood hsort w' hrun
    obtain ⟨cur, tot, defe, cor, nowStr, now⟩ := c
    rw [runPartCalls,
      savePartResult_step cur tot defe cor nowStr now hfind
        (fun e he => partKey_isSome_of_isPartEntry (hgood e he))] at hrun
    have hgood1 : ∀ e ∈ (decodeParts r.parts ++
        [mkPartEntry cur tot defe cor nowStr]).insertionSort partLe,
        isPartEntry e = true := by
      intro e he
      rw [List.mem_insertionSort] at he
      rcases List.mem_append.mp he with h1 | h2
      · exact hgood e h1
      · rw [List.mem_singleton.mp h2]
        exact isPartEntry_mkPartEntry cur tot defe cor nowStr
    have hact : activeAt loc { r with
        parts := some ((decodeParts r.parts ++
          [mkPartEntry cur tot defe cor nowStr]).insertionSort partLe),
        updated_at := now } = true :=
      (firstWhere_getElem hfind).2
    obtain ⟨r', hfind', hlen, hgood', hsort'⟩ :=
      ih { w with
            db := { w.db with
              rows := w.db.rows.set i { r with
                parts := some ((decodeParts r.parts ++
                  [mkPartEntry cur tot defe cor nowStr]).insertionSort partLe),
                updated_at := now } } }
        i
        { r with
          parts := some ((decodeParts r.parts ++
            [mkPartEntry cur tot defe cor nowStr]).insertionSort partLe),
          updated_at := now }
        (firstWhere_set_self hfind hact) hgood1
        (List.sorted_insertionSort partLe _) w' hrun
    refine ⟨r', hfind', ?_, hgood', hsort'⟩
    simp only [decodeParts, List.length_insertionSort, List.length_append,
      List.length_singleton, List.length_cons, List.length_nil] at hlen ⊢
    omega

/-- An input that is empty or parses as JSON makes lines 91-93 succeed. -/
theorem parseNewCF_ok_of {cf : String}
    (hcf : cf = "" ∨ (loads cf).isSome = true) :
    ∃ ncf, parseNewCF cf = .ok ncf := by
  rcases hcf with rfl | hs
  · exact ⟨.obj [], rfl⟩
  · obtain ⟨v, hv⟩ := Option.isSome_iff_exists.mp hs
    refine ⟨v, ?_⟩
    unfold parseNewCF
    split
    · rename_i h
      rw [String.isEmpty_iff] at h
      subst h
      rw [show loads "" = none from rfl] at hv
      exact Option.noConfusion hv
    · rw [hv]

/-! ### Claims -/

/-- C1, counterexample: on a world whose single active record for `line1`
stores the custom fields text for the object mapping `a` to `1`, calling
`save_result` with the empty `custom_fields` argument succeeds but leaves
the record storing the empty string — not the previous object text, which
the claim says is preserved. -/
theorem c1_counterexample :
    saveResult sampleWorld "line1" 0 0 0 0 "" true 1 false =
      .ok ({
        db := {
          rows := [{
            id := 1, active := true, location := "line1", total_count := 0,
            source_count := 0, defects_count := 0, correct_count := 0,
            parts := none, custom_fields := some "", created_at := 0,
            updated_at := 1 }],
          nextId := 2 },
        log := [] }, true) ∧
    sampleRow.custom_fields = some "\x7b\"a\": 1\x7d" ∧
    (some "" : Option String) ≠ some "\x7b\"a\": 1\x7d" :=
  ⟨rfl, rfl, by decide⟩

/-- C1, amended: for every location with an existing active record whose
stored `custom_fields` parses as JSON, calling `save_result` with an empty
`custom_fields` argument contributes no new fields to the merge, but the
merge result is then discarded: the record's stored `custom_fields` is
overwritten with the empty input string (so the previous object text is
cleared, not preserved). -/
theorem c1_amended (w : World) (loc : String) (tc sc dc cc : Int)
    (act : Bool) (now : Nat) (i : Nat) (r : CounterRec) (j : Json)
    (hfind : firstActive w.db loc = some (i, r))
    (hstored : loadsOr r.custom_fields = some j) :
    saveResult w loc tc sc dc cc "" act now false =
      .ok ({ w with
        db := { w.db with
          rows := w.db.rows.set i { r with
            active := act, total_count := tc, source_count := sc,
            defects_count := dc, correct_count := cc,
            custom_fields := some "", updated_at := now } } }, true) := by
  have hm : mergeCF r.custom_fields "" (Json.obj []) = .ok "" := by
    unfold mergeCF
    rw [hstored]
    rfl
  exact saveResult_update tc sc dc cc act now hfind rfl hm

/-- C1, witness for the amended theorem at the sample world. -/
theorem c1_amended_witness :
    firstActive sampleWorld.db "line1" = some (0, sampleRow) ∧
    loadsOr sampleRow.custom_fields = some (Json.obj [("a", Json.num 1)]) ∧
    saveResult sampleWorld "line1" 2 3 4 5 "" false 7 false =
      .ok ({ sampleWorld with
        db := { sampleWorld.db with
          rows := sampleWorld.db.rows.set 0 { sampleRow with
            active := false, total_count := 2, source_count := 3,
            defects_count := 4, correct_count := 5,
            custom_fields := some "", updated_at := 7 } } }, true) :=
  ⟨rfl, rfl, c1_amended sampleWorld "line1" 2 3 4 5 false 7 0 sampleRow
    (Json.obj [("a", Json.num 1)]) rfl rfl⟩

/-- C2, counterexample: inserting into an empty table with an empty
`custom_fields` argument stores the empty string in the new record, not the
text of the empty object which the claim requires. -/
theorem c2_counterexample :
    saveResult emptyWorld "line1" 0 0 0 0 "" true 1 false =
      .ok ({ db := { rows := [{
          id := 1, active := true, location := "line1", total_count := 0,
          source_count := 0, defects_count := 0, correct_count := 0,
          parts := none, custom_fields := some "", created_at := 1,
          updated_at := 1 }], nextId := 2 }, log := [] }, true) ∧
    (some "" : Option String) ≠ some "\x7b\x7d" :=
  ⟨rfl, by decide⟩

/-- C2, amended: for every location with no active record, a `save_result`
whose `custom_fields` argument is empty or parses as JSON inserts exactly
one new record whose `custom_fields` column holds the input string as-is —
including the empty string when the input is empty (never the text of the
empty object). -/
theorem c2_amended (w : World) (loc : String) (tc sc dc cc : Int)
    (act : Bool) (now : Nat) (cf : String)
    (hnone : firstActive w.db loc = none)
    (hcf : cf = "" ∨ (loads cf).isSome = true) :
    saveResult w loc tc sc dc cc cf act now false =
      .ok ({ w with
        db := {
          rows := w.db.rows ++ [{
            id := w.db.nextId, active := act, location := loc,
            total_count := tc, source_count := sc, defects_count := dc,
            correct_count := cc, parts := none, custom_fields := some cf,
            created_at := now, updated_at := now }],
          nextId := w.db.nextId + 1 } }, true) := by
  obtain ⟨ncf, hparse⟩ := parseNewCF_ok_of hcf
  exact saveResult_insert tc sc dc cc act now hnone hparse

/-- C2, witness for the amended theorem: inserting with a non-empty JSON
object input on an empty table. -/
theorem c2_amended_witness :
    firstActive emptyWorld.db "line1" = none ∧
    saveResult emptyWorld "line1" 7 6 1 5 "\x7b\"a\": 1\x7d" true 3 false =
      .ok ({ emptyWorld with
        db := {
          rows := emptyWorld.db.rows ++ [{
            id := 1, active := true, location := "line1",
            total_count := 7, source_count := 6, defects_count := 1,
            correct_count := 5, parts := none,
            custom_fields := some "\x7b\"a\": 1\x7d",
            created_at := 3, updated_at := 3 }],
          nextId := 2 } }, true) :=
  ⟨rfl, c2_amended emptyWorld "line1" 7 6 1 5 true 3 "\x7b\"a\": 1\x7d"
    rfl (Or.inr rfl)⟩

/-- C3: for every location with an existing active record, a successful
`save_result` updates that same row in place — same position, `id`,
`location`, `created_at` and `parts` untouched, no row added — while
overwriting `active`, the four counters and `custom_fields`, and moving
`updated_at` forward to the call time. -/
theorem c3_update_in_place (w : World) (loc : String)
    (tc sc dc cc : Int) (cf : String) (act : Bool) (now : Nat)
    (i : Nat) (r : CounterRec) (ncf : Json) (s : String)
    (hfind : firstActive w.db loc = some (i, r))
    (hparse : parseNewCF cf = .ok ncf)
    (hmerge : mergeCF r.custom_fields cf ncf = .ok s)
    (hnow : r.updated_at < now) :
    ∃ r', saveResult w loc tc sc dc cc cf act now false =
        .ok ({ w with
          db := { w.db with rows := w.db.rows.set i r' } }, true) ∧
      r'.id = r.id ∧ r'.location = r.location ∧ r'.created_at = r.created_at ∧
      r'.parts = r.parts ∧ r'.active = act ∧ r'.total_count = tc ∧
      r'.source_count = sc ∧ r'.defects_count = dc ∧ r'.correct_count = cc ∧
      r'.custom_fields = some s ∧ r'.updated_at = now ∧
      r.updated_at < r'.updated_at ∧
      (w.db.rows.set i r').length = w.db.rows.length :=
  ⟨_, saveResult_update tc sc dc cc act now hfind hparse hmerge,
    rfl, rfl, rfl, rfl, rfl, rfl, rfl, rfl, rfl, rfl, rfl, hnow,
    List.length_set ..⟩

/-- C3, witness at the sample world with a one-key JSON object input. -/
theorem c3_update_in_place_witness :
    firstActive sampleWorld.db "line1" = some (0, sampleRow) ∧
    parseNewCF "\x7b\"b\": 2\x7d" = .ok (Json.obj [("b", Json.num 2)]) ∧
    mergeCF sampleRow.custom_fields "\x7b\"b\": 2\x7d"
      (Json.obj [("b", Json.num 2)]) = .ok "\x7b\"a\": 1, \"b\": 2\x7d" ∧
    sampleRow.updated_at < 4 ∧
    (∃ r', saveResult sampleWorld "line1" 100 95 5 90 "\x7b\"b\": 2\x7d"
        true 4 false =
        .ok ({ sampleWorld with
          db := { sampleWorld.db with
            rows := sampleWorld.db.rows.set 0 r' } }, true) ∧
      r'.id = sampleRow.id ∧ r'.location = sampleRow.location ∧
      r'.created_at = sampleRow.created_at ∧
      r'.parts = sampleRow.parts ∧ r'.active = true ∧
      r'.total_count = 100 ∧ r'.source_count = 95 ∧ r'.defects_count = 5 ∧
      r'.correct_count = 90 ∧
      r'.custom_fields = some "\x7b\"a\": 1, \"b\": 2\x7d" ∧
      r'.updated_at = 4 ∧ sampleRow.updated_at < r'.updated_at ∧
      (sampleWorld.db.rows.set 0 r').length = sampleWorld.db.rows.length) :=
  ⟨rfl, rfl, rfl, by decide,
    c3_update_in_place sampleWorld "line1" 100 95 5 90 "\x7b\"b\": 2\x7d"
      true 4 0 sampleRow (Json.obj [("b", Json.num 2)])
      "\x7b\"a\": 1, \"b\": 2\x7d" rfl rfl rfl (by decide)⟩

/-- C4: for every location with no active record, `save_part_result`
returns `False` and the stored table is unchanged — no record created or
modified — whether or not the storage layer fails. -/
theorem c4_no_active_noop (w : World) (loc : String)
    (cur tot defe cor : Int) (nowStr : String) (now : Nat) (sf : Bool)
    (hnone : firstActive w.db loc = none) :
    ∃ w', savePartResult w loc cur tot defe cor nowStr now sf =
        .ok (w', false) ∧ w'.db = w.db := by
  cases sf with
  | true => exact ⟨_, rfl, rfl⟩
  | false =>
    refine ⟨w, ?_, rfl⟩
    simp only [savePartResult, Bool.false_eq_true, if_false, hnone]

/-- C4, witness on the empty table. -/
theorem c4_no_active_noop_witness :
    firstActive emptyWorld.db "line1" = none ∧
    ∃ w', savePartResult emptyWorld "line1" 1 2 3 4 "2024-01-01 10:00:00"
        5 false = .ok (w', false) ∧ w'.db = emptyWorld.db :=
  ⟨rfl, c4_no_active_noop emptyWorld "line1" 1 2 3 4 "2024-01-01 10:00:00"
    5 false rfl⟩

/-- C5: for every active record starting with an empty `parts` log, after
`N` successful `save_part_result` calls the record's `parts` value decodes
to an array of exactly `N` entries, each carrying the keys `current`,
`total`, `defects`, `correct` and `created_at`, and the array is sorted
descending by the `created_at` string. -/
theorem c5_parts_append (w : World) (loc : String)
    (calls : List (Int × Int × Int × Int × String × Nat))
    (i : Nat) (r : CounterRec) (w' : World)
    (hfind : firstActive w.db loc = some (i, r))
    (hempty : r.parts = none)
    (hrun : runPartCalls w loc calls = some w') :
    ∃ r', w'.db.rows[i]? = some r' ∧
      (decodeParts r'.parts).length = calls.length ∧
      (∀ e ∈ decodeParts r'.parts, isPartEntry e = true) ∧
      partsSortedDesc (decodeParts r'.parts) := by
  obtain ⟨r', hfind', hlen, hgood, hsort⟩ :=
    runPartCalls_good calls w i r hfind
      (by rw [hempty]; intro e he; exact absurd he (List.not_mem_nil e))
      (by rw [hempty]; exact List.Pairwise.nil)
      w' hrun
  refine ⟨r', (firstWhere_getElem hfind').1, ?_, hgood, hsort⟩
  rw [hlen, hempty]
  exact Nat.zero_add _

/-- C5, witness: three appends with out-of-order timestamps on the sample
world end in a three-entry log sorted most-recent-first. -/
theorem c5_parts_append_witness :
    runPartCalls sampleWorld "line1"
      [(1, 1, 0, 1, "2024-01-01 10:00:00", 1),
       (2, 2, 0, 2, "2024-01-01 09:00:00", 2),
       (3, 3, 0, 3, "2024-01-01 11:00:00", 3)] = some {
        db := {
          rows := [{
            id := 1, active := true, location := "line1",
            total_count := 10, source_count := 9, defects_count := 1,
            correct_count := 8,
            parts := some [
              mkPartEntry 3 3 0 3 "2024-01-01 11:00:00",
              mkPartEntry 1 1 0 1 "2024-01-01 10:00:00",
              mkPartEntry 2 2 0 2 "2024-01-01 09:00:00"],
            custom_fields := some "\x7b\"a\": 1\x7d",
            created_at := 0, updated_at := 3 }],
          nextId := 2 },
        log := [] } ∧
    ∃ r', ({
        db := {
          rows := [{
            id := 1, active := true, location := "line1",
            total_count := 10, source_count := 9, defects_count := 1,
            correct_count := 8,
            parts := some [
              mkPartEntry 3 3 0 3 "2024-01-01 11:00:00",
              mkPartEntry 1 1 0 1 "2024-01-01 10:00:00",
              mkPartEntry 2 2 0 2 "2024-01-01 09:00:00"],
            custom_fields := some "\x7b\"a\": 1\x7d",
            created_at := 0, updated_at := 3 }],
          nextId := 2 },
        log := [] } : World).db.rows[0]? = some r' ∧
      (decodeParts r'.parts).length = 3 ∧
      (∀ e ∈ decodeParts r'.parts, isPartEntry e = true) ∧
      partsSortedDesc (decodeParts r'.parts) :=
  ⟨rfl, c5_parts_append sampleWorld "line1"
    [(1, 1, 0, 1, "2024-01-01 10:00:00", 1),
     (2, 2, 0, 2, "2024-01-01 09:00:00", 2),
     (3, 3, 0, 3, "2024-01-01 11:00:00", 3)]
    0 sampleRow _ rfl rfl rfl⟩

/-- C6: the `custom_fields` merge is idempotent for repeated identical
input: on an existing active record, two `save_result` calls with the same
non-empty JSON-object input leave the stored `custom_fields` equal to the
result of a single call. -/
theorem c6_merge_idempotent (w : World) (loc : String)
    (tc sc dc cc tc2 sc2 dc2 cc2 : Int) (n1 n2 : Nat)
    (i : Nat) (r : CounterRec) (s : String)
    (e o : List (String × Json))
    (hfind : firstActive w.db loc = some (i, r))
    (hstored : loadsOr r.custom_fields = some (Json.obj e))
    (hs : loads s = some (Json.obj o))
    (hse : s.isEmpty = false)
    (ho : o ≠ [])
    (hde : (dictKeys e).Nodup) (hdo : (dictKeys o).Nodup)
    (hrt : loads (dumps (Json.obj (dictUpdate e o))) =
      some (Json.obj (dictUpdate e o))) :
    ∃ w1 w2 r1 r2,
      saveResult w loc tc sc dc cc s true n1 false = .ok (w1, true) ∧
      saveResult w1 loc tc2 sc2 dc2 cc2 s true n2 false = .ok (w2, true) ∧
      w1.db.rows[i]? = some r1 ∧ w2.db.rows[i]? = some r2 ∧
      r1.custom_fields = some (dumps (Json.obj (dictUpdate e o))) ∧
      r2.custom_fields = r1.custom_fields := by
  obtain ⟨p, o', rfl⟩ : ∃ p o', o = p :: o' := by
    cases o with
    | nil => exact absurd rfl ho
    | cons p o' => exact ⟨p, o', rfl⟩
  have hparse : parseNewCF s = .ok (Json.obj (p :: o')) := by
    unfold parseNewCF
    rw [if_neg (by rw [hse]; exact Bool.false_ne_true), hs]
  have hm1 : mergeCF r.custom_fields s (Json.obj (p :: o')) =
      .ok (dumps (Json.obj (dictUpdate e (p :: o')))) := by
    unfold mergeCF
    rw [hstored]
    rfl
  have h1 := saveResult_update tc sc dc cc true n1 hfind hparse hm1
  have hi : i < w.db.rows.length := by
    have hg := (firstWhere_getElem hfind).1
    by_contra hc
    rw [List.getElem?_eq_none (Nat.le_of_not_lt hc)] at hg
    exact Option.noConfusion hg
  have hloc : (r.location == loc) = true := by
    have hal := (firstWhere_getElem hfind).2
    rw [activeAt, Bool.and_eq_true] at hal
    exact hal.1
  have hact1 : activeAt loc { r with
      active := true, total_count := tc, source_count := sc,
      defects_count := dc, correct_count := cc,
      custom_fields := some (dumps (Json.obj (dictUpdate e (p :: o')))),
      updated_at := n1 } = true := by
    rw [activeAt]
    show (r.location == loc && true) = true
    rw [hloc]
    rfl
  have hfind1 : firstActive ({ w with
      db := { w.db with
        rows := w.db.rows.set i { r with
          active := true, total_count := tc, source_count := sc,
          defects_count := dc, correct_count := cc,
          custom_fields := some (dumps (Json.obj (dictUpdate e (p :: o')))),
          updated_at := n1 } } } : World).db loc = some (i, { r with
      active := true, total_count := tc, source_count := sc,
      defects_count := dc, correct_count := cc,
      custom_fields := some (dumps (Json.obj (dictUpdate e (p :: o')))),
      updated_at := n1 }) := firstWhere_set_self hfind hact1
  have hload1 : loadsOr (some (dumps (Json.obj (dictUpdate e (p :: o'))))) =
      some (Json.obj (dictUpdate e (p :: o'))) := by
    show (if (dumps (Json.obj (dictUpdate e (p :: o')))).isEmpty = true
        then loads "\x7b\x7d"
        else loads (dumps (Json.obj (dictUpdate e (p :: o'))))) =
      some (Json.obj (dictUpdate e (p :: o')))
    rw [if_neg (by rw [dumps_obj_isEmpty_false]; exact Bool.false_ne_true)]
    exact hrt
  have hm2 : mergeCF
      (some (dumps (Json.obj (dictUpdate e (p :: o'))))) s
      (Json.obj (p :: o')) =
      .ok (dumps (Json.obj (dictUpdate e (p :: o')))) := by
    unfold mergeCF
    rw [hload1]
    show PyResult.ok (dumps (Json.obj
      (dictUpdate (dictUpdate e (p :: o')) (p :: o')))) = _
    rw [dictUpdate_idem hde hdo]
  have h2 := saveResult_update tc2 sc2 dc2 cc2 true n2 hfind1 hparse hm2
  refine ⟨_, _,
    { r with
      active := true, total_count := tc, source_count := sc,
      defects_count := dc, correct_count := cc,
      custom_fields := some (dumps (Json.obj (dictUpdate e (p :: o')))),
      updated_at := n1 },
    { r with
      active := true, total_count := tc2, source_count := sc2,
      defects_count := dc2, correct_count := cc2,
      custom_fields := some (dumps (Json.obj (dictUpdate e (p :: o')))),
      updated_at := n2 },
    h1, h2, ?_, ?_, rfl, rfl⟩
  · exact List.getElem?_set_self hi
  · exact List.getElem?_set_self (by rw [List.length_set]; exact hi)

/-- C6, witness: merging the object mapping `b` to `2` twice into the
sample record. -/
theorem c6_merge_idempotent_witness :
    firstActive sampleWorld.db "line1" = some (0, sampleRow) ∧
    loads "\x7b\"b\": 2\x7d" = some (Json.obj [("b", Json.num 2)]) ∧
    ∃ w1 w2 r1 r2,
      saveResult sampleWorld "line1" 1 2 3 4 "\x7b\"b\": 2\x7d" true 5
        false = .ok (w1, true) ∧
      saveResult w1 "line1" 6 7 8 9 "\x7b\"b\": 2\x7d" true 10
        false = .ok (w2, true) ∧
      w1.db.rows[0]? = some r1 ∧ w2.db.rows[0]? = some r2 ∧
      r1.custom_fields = some (dumps (Json.obj
        (dictUpdate [("a", Json.num 1)] [("b", Json.num 2)]))) ∧
      r2.custom_fields = r1.custom_fields :=
  ⟨rfl, rfl, c6_merge_idempotent sampleWorld "line1" 1 2 3 4 6 7 8 9 5 10
    0 sampleRow "\x7b\"b\": 2\x7d" [("a", Json.num 1)] [("b", Json.num 2)]
    rfl rfl rfl rfl (List.cons_ne_nil _ _) (by decide) (by decide) rfl⟩

/-- C7: when the storage layer raises, every public operation rolls back
leaving the database unchanged, appends the error to the log, and returns
`False` (mutating operations) or `None` (read operations) instead of
letting the exception escape. -/
theorem c7_storage_error_handling :
    (∀ (w : World) (loc : String) (tc sc dc cc : Int) (cf : String)
      (act : Bool) (now : Nat),
      saveResult w loc tc sc dc cc cf act now true =
        .ok ({ w with log := w.log ++ [sqlErrMsg, tracebackMsg] }, false)) ∧
    (∀ (w : World) (loc : String) (cur tot defe cor : Int)
      (nowStr : String) (now : Nat),
      savePartResult w loc cur tot defe cor nowStr now true =
        .ok ({ w with log := w.log ++ [sqlErrMsg, tracebackMsg] }, false)) ∧
    (∀ (w : World) (loc : String) (now : Nat),
      closeCurrentCount w loc now true =
        ({ w with log := w.log ++ [sqlErrMsg] }, false)) ∧
    (∀ (w : World) (key : String),
      getCurrentCount w key true =
        ({ w with log := w.log ++ [sqlErrMsg] }, none)) ∧
    (∀ (w : World) (rec_id : Nat),
      getCount w rec_id true =
        ({ w with log := w.log ++ [sqlErrMsg] }, none)) ∧
    (∀ (w : World) (key : String) (page per_page : Nat),
      getPaginated w key page per_page true =
        ({ w with log := w.log ++
          ["Error retrieving counters for key \x27" ++ key ++ "\x27: " ++
            sqlErrMsg] }, none)) :=
  ⟨fun _ _ _ _ _ _ _ _ _ => rfl, fun _ _ _ _ _ _ _ _ => rfl,
    fun _ _ _ => rfl, fun _ _ => rfl, fun _ _ => rfl, fun _ _ _ _ => rfl⟩

/-- C8: closing the active record flips its `active` flag in place and
advances `updated_at` returning `True` (and returns `False` when no active
record exists); a subsequent `save_result` for the same location then
appends a fresh record carrying the next autoincrement id — distinct from
the closed record's id — while the closed record stays inactive. -/
theorem c8_close_then_insert (w : World) (loc : String) (now n2 : Nat)
    (tc sc dc cc : Int) (cf : String) (act2 : Bool)
    (i : Nat) (r : CounterRec)
    (hfind : firstActive w.db loc = some (i, r))
    (huniq : ∀ (j : Nat) (rj : CounterRec), j ≠ i →
      w.db.rows[j]? = some rj → activeAt loc rj = false)
    (hwf : ∀ rr ∈ w.db.rows, rr.id < w.db.nextId)
    (hnow : r.updated_at < now)
    (hcf : cf = "" ∨ (loads cf).isSome = true) :
    (∀ (w0 : World), firstActive w0.db loc = none →
      closeCurrentCount w0 loc now false = (w0, false)) ∧
    closeCurrentCount w loc now false =
      ({ w with
        db := { w.db with
          rows := w.db.rows.set i { r with
            active := false, updated_at := now } } }, true) ∧
    r.updated_at < now ∧
    firstActive ({ w with
      db := { w.db with
        rows := w.db.rows.set i { r with
          active := false, updated_at := now } } } : World).db loc = none ∧
    saveResult ({ w with
        db := { w.db with
          rows := w.db.rows.set i { r with
            active := false, updated_at := now } } } : World)
      loc tc sc dc cc cf act2 n2 false =
      .ok ({ w with
        db := {
          rows := w.db.rows.set i { r with
              active := false, updated_at := now } ++ [{
            id := w.db.nextId, active := act2, location := loc,
            total_count := tc, source_count := sc, defects_count := dc,
            correct_count := cc, parts := none, custom_fields := some cf,
            created_at := n2, updated_at := n2 }],
          nextId := w.db.nextId + 1 } }, true) ∧
    w.db.nextId ≠ r.id ∧
    (w.db.rows.set i { r with active := false, updated_at := now } ++ [{
        id := w.db.nextId, active := act2, location := loc,
        total_count := tc, source_count := sc, defects_count := dc,
        correct_count := cc, parts := none, custom_fields := some cf,
        created_at := n2, updated_at := n2 }])[i]? =
      some { r with active := false, updated_at := now } := by
  have hi : i < w.db.rows.length := by
    have hg := (firstWhere_getElem hfind).1
    by_contra hc
    rw [List.getElem?_eq_none (Nat.le_of_not_lt hc)] at hg
    exact Option.noConfusion hg
  have hinact : activeAt loc { r with active := false, updated_at := now } =
      false := by
    rw [activeAt]
    show (r.location == loc && false) = false
    exact Bool.and_false _
  have hnone1 : firstActive ({ w with
      db := { w.db with
        rows := w.db.rows.set i { r with
          active := false, updated_at := now } } } : World).db loc = none :=
    firstWhere_set_none hfind hinact huniq
  have hclose : closeCurrentCount w loc now false =
      ({ w with
        db := { w.db with
          rows := w.db.rows.set i { r with
            active := false, updated_at := now } } }, true) := by
    simp only [closeCurrentCount, Bool.false_eq_true, if_false, hfind]
  obtain ⟨ncf, hparse⟩ := parseNewCF_ok_of hcf
  have hins := saveResult_insert (w := { w with
      db := { w.db with
        rows := w.db.rows.set i { r with
          active := false, updated_at := now } } })
    tc sc dc cc act2 n2 hnone1 hparse
  have hne : w.db.nextId ≠ r.id := by
    have hmem : r ∈ w.db.rows := List.getElem?_mem (firstWhere_getElem hfind).1
    have := hwf r hmem
    omega
  refine ⟨?_, hclose, hnow, hnone1, hins, hne, ?_⟩
  · intro w0 h0
    simp only [closeCurrentCount, Bool.false_eq_true, if_false, h0]
  · rw [List.getElem?_append_left (by rw [List.length_set]; exact hi)]
    exact List.getElem?_set_self hi

/-- C8, witness at the sample world. -/
theorem c8_close_then_insert_witness :
    firstActive sampleWorld.db "line1" = some (0, sampleRow) ∧
    ((∀ (w0 : World), firstActive w0.db "line1" = none →
      closeCurrentCount w0 "line1" 4 false = (w0, false)) ∧
    closeCurrentCount sampleWorld "line1" 4 false =
      ({ sampleWorld with
        db := { sampleWorld.db with
          rows := sampleWorld.db.rows.set 0 { sampleRow with
            active := false, updated_at := 4 } } }, true) ∧
    sampleRow.updated_at < 4 ∧
    firstActive ({ sampleWorld with
      db := { sampleWorld.db with
        rows := sampleWorld.db.rows.set 0 { sampleRow with
          active := false, updated_at := 4 } } } : World).db "line1" = none ∧
    saveResult ({ sampleWorld with
        db := { sampleWorld.db with
          rows := sampleWorld.db.rows.set 0 { sampleRow with
            active := false, updated_at := 4 } } } : World)
      "line1" 1 2 3 4 "" true 9 false =
      .ok ({ sampleWorld with
        db := {
          rows := sampleWorld.db.rows.set 0 { sampleRow with
              active := false, updated_at := 4 } ++ [{
            id := sampleWorld.db.nextId, active := true, location := "line1",
            total_count := 1, source_count := 2, defects_count := 3,
            correct_count := 4, parts := none, custom_fields := some "",
            created_at := 9, updated_at := 9 }],
          nextId := sampleWorld.db.nextId + 1 } }, true) ∧
    sampleWorld.db.nextId ≠ sampleRow.id ∧
    (sampleWorld.db.rows.set 0 { sampleRow with
        active := false, updated_at := 4 } ++ [{
        id := sampleWorld.db.nextId, active := true, location := "line1",
        total_count := 1, source_count := 2, defects_count := 3,
        correct_count := 4, parts := none, custom_fields := some "",
        created_at := 9, updated_at := 9 }])[0]? =
      some { sampleRow with active := false, updated_at := 4 }) :=
  ⟨rfl, c8_close_then_insert sampleWorld "line1" 4 9 1 2 3 4 "" true 0
    sampleRow rfl
    (fun j rj hj hget => absurd hget (by
      rw [List.getElem?_eq_none (l := sampleWorld.db.rows)
        (Nat.one_le_iff_ne_zero.mpr hj)]
      exact fun hc => Option.noConfusion hc))
    (by decide) (by decide) (Or.inl rfl)⟩

/-- C9: a successful `get_paginated` reports `total` as the number of rows
at the location (active or not), returns the slice of those rows starting
at offset `(page-1)*per_page` with at most `per_page` entries, and computes
`has_next = (page*per_page < total)` and `has_prev = (page > 1)`; the state
is left unchanged. -/
theorem c9_pagination (w : World) (key : String) (page per_page : Nat)
    (_hpage : 1 ≤ page) :
    ∃ pr, getPaginated w key page per_page false = (w, some pr) ∧
      pr.total = w.db.rows.countP (fun r => r.location == key) ∧
      pr.page = page ∧ pr.per_page = per_page ∧
      pr.results = ((w.db.rows.filter (fun r => r.location == key)).drop
        ((page - 1) * per_page)).take per_page ∧
      pr.results.length ≤ per_page ∧
      pr.has_next = decide (page * per_page < pr.total) ∧
      pr.has_prev = decide (1 < page) := by
  refine ⟨_, rfl, ?_, rfl, rfl, rfl, ?_, rfl, rfl⟩
  · exact (List.countP_eq_length_filter _ _).symm
  · exact List.length_take_le _ _

/-- C9, witness: fifteen matching rows with `page = 2`, `per_page = 10`
give five results, `has_next = false`, `has_prev = true`, `total = 15`. -/
theorem c9_pagination_witness :
    (1 ≤ 2 ∧
    ∃ pr, getPaginated pagedWorld "k" 2 10 false = (pagedWorld, some pr) ∧
      pr.total = pagedWorld.db.rows.countP (fun r => r.location == "k") ∧
      pr.page = 2 ∧ pr.per_page = 10 ∧
      pr.results = ((pagedWorld.db.rows.filter
        (fun r => r.location == "k")).drop ((2 - 1) * 10)).take 10 ∧
      pr.results.length ≤ 10 ∧
      pr.has_next = decide (2 * 10 < pr.total) ∧
      pr.has_prev = decide (1 < 2)) ∧
    (getPaginated pagedWorld "k" 2 10 false).2.map
      (fun (p : PageResult) => (p.total, p.results.length, p.has_next,
        p.has_prev)) = some (15, 5, false, true) :=
  ⟨⟨by decide, c9_pagination pagedWorld "k" 2 10 (by decide)⟩, by decide⟩

/-- C10: a successful `save_part_result` on an existing active record
changes only that record's `parts` and `updated_at`: its other nine fields
are unchanged and every other row of the table is untouched. -/
theorem c10_part_frame (w : World) (loc : String)
    (cur tot defe cor : Int) (nowStr : String) (now : Nat)
    (i : Nat) (r : CounterRec)
    (hfind : firstActive w.db loc = some (i, r))
    (hok : ∀ e ∈ decodeParts r.parts, (partKey e).isSome = true) :
    ∃ r', savePartResult w loc cur tot defe cor nowStr now false =
        .ok ({ w with
          db := { w.db with rows := w.db.rows.set i r' } }, true) ∧
      r'.id = r.id ∧ r'.active = r.active ∧ r'.location = r.location ∧
      r'.total_count = r.total_count ∧ r'.source_count = r.source_count ∧
      r'.defects_count = r.defects_count ∧
      r'.correct_count = r.correct_count ∧
      r'.custom_fields = r.custom_fields ∧ r'.created_at = r.created_at ∧
      r'.updated_at = now ∧
      ∀ (j : Nat), j ≠ i → (w.db.rows.set i r')[j]? = w.db.rows[j]? :=
  ⟨_, savePartResult_step cur tot defe cor nowStr now hfind hok,
    rfl, rfl, rfl, rfl, rfl, rfl, rfl, rfl, rfl, rfl,
    fun _ hj => List.getElem?_set_ne (fun hc => hj hc.symm)⟩

/-- C10, witness: one append on the sample world. -/
theorem c10_part_frame_witness :
    firstActive sampleWorld.db "line1" = some (0, sampleRow) ∧
    ∃ r', savePartResult sampleWorld "line1" 1 2 3 4
        "2024-01-01 10:00:00" 6 false =
        .ok ({ sampleWorld with
          db := { sampleWorld.db with
            rows := sampleWorld.db.rows.set 0 r' } }, true) ∧
      r'.id = sampleRow.id ∧ r'.active = sampleRow.active ∧
      r'.location = sampleRow.location ∧
      r'.total_count = sampleRow.total_count ∧
      r'.source_count = sampleRow.source_count ∧
      r'.defects_count = sampleRow.defects_count ∧
      r'.correct_count = sampleRow.correct_count ∧
      r'.custom_fields = sampleRow.custom_fields ∧
      r'.created_at = sampleRow.created_at ∧
      r'.updated_at = 6 ∧
      ∀ (j : Nat), j ≠ 0 →
        (sampleWorld.db.rows.set 0 r')[j]? = sampleWorld.db.rows[j]? :=
  ⟨rfl, c10_part_frame sampleWorld "line1" 1 2 3 4 "2024-01-01 10:00:00" 6
    0 sampleRow rfl
    (fun e he => absurd he (List.not_mem_nil e))⟩

end CVCounter
